import Mathlib

/-!
Verification of the pox translation-catalog core: the plural-formula engine
(`pox/plural_parser.py`), the plural hint formatter (`pox/plurals.py`), the
table encoder (`pox/spreadsheet.py`) and the table decoder
(`pox/cli/xop_convert.py`), shallowly embedded in Lean. Python integers are
`Int` (with Python's floor division and modulo, `Int.fdiv`/`Int.fmod`),
Python `bool`/`int` results of the evaluator are the sum type `PValue`,
exceptions are `Except PyErr`.
-/

set_option maxRecDepth 10000

deriving instance DecidableEq for Except

namespace pox

/-- The Python exceptions the embedded code can raise. `fuel` marks
exhaustion of the recursion fuel of the embedded recursive-descent parser;
the fuel supplied by the entry points exceeds any reachable call depth, so
it stands for no Python behaviour. `floatPow` marks `**` with a negative
exponent, where Python switches to float arithmetic — no formula exercised
by the claims reaches it. -/
inductive PyErr
  | valueError
  | typeError
  | keyError
  | indexError
  | zeroDivisionError
  | floatPow
  | fuel
  | shapeError
deriving DecidableEq

/-- A value of the plural-formula evaluator: Python lets the recursive
descent produce either an `int` or a `bool` (`plural_parser.py`, return type
`bool | int`). -/
inductive PValue
  | int (i : Int)
  | bool (b : Bool)
deriving DecidableEq

/-- Python truthiness of an evaluator value. -/
def pyTruthy : PValue → Bool
  | .int i => i != 0
  | .bool b => b

/-- Numeric view of an evaluator value: Python `bool` is a subtype of `int`
(`True == 1`, `False == 0`) for arithmetic and comparisons. -/
def pyToInt : PValue → Int
  | .int i => i
  | .bool b => if b then 1 else 0

def pyAdd (a b : PValue) : PValue := .int (pyToInt a + pyToInt b)

def pySub (a b : PValue) : PValue := .int (pyToInt a - pyToInt b)

def pyMul (a b : PValue) : PValue := .int (pyToInt a * pyToInt b)

/-- Python `//`: floor division; `ZeroDivisionError` on a zero divisor. -/
def pyDiv (a b : PValue) : Except PyErr PValue :=
  if pyToInt b = 0 then .error .zeroDivisionError
  else .ok (.int ((pyToInt a).fdiv (pyToInt b)))

/-- Python `%`: remainder with the divisor's sign; `ZeroDivisionError` on a
zero divisor. -/
def pyMod (a b : PValue) : Except PyErr PValue :=
  if pyToInt b = 0 then .error .zeroDivisionError
  else .ok (.int ((pyToInt a).fmod (pyToInt b)))

/-- Python `**` on integers, for a non-negative exponent. -/
def pyPow (a b : PValue) : Except PyErr PValue :=
  if pyToInt b < 0 then .error .floatPow
  else .ok (.int (pyToInt a ^ (pyToInt b).toNat))

def pyEq (a b : PValue) : PValue := .bool (pyToInt a == pyToInt b)

def pyNeq (a b : PValue) : PValue := .bool (pyToInt a != pyToInt b)

def pyLt (a b : PValue) : PValue := .bool (pyToInt a < pyToInt b)

def pyLte (a b : PValue) : PValue := .bool (pyToInt a ≤ pyToInt b)

def pyGt (a b : PValue) : PValue := .bool (pyToInt b < pyToInt a)

def pyGte (a b : PValue) : PValue := .bool (pyToInt b ≤ pyToInt a)

/-- Python `not`. -/
def pyNot (v : PValue) : PValue := .bool (!pyTruthy v)

/-- Python `and`: the left operand when falsy, else the right operand. -/
def pyAnd (a b : PValue) : PValue := if pyTruthy a then b else a

/-- Python `or`: the left operand when truthy, else the right operand. -/
def pyOr (a b : PValue) : PValue := if pyTruthy a then a else b

/-- Tokens of the plural-formula language (`plural_parser.py`, class
`Token`): the tag names follow the source's type strings. -/
inductive Token
  | INTEGER (n : Nat)
  | VARIABLE (s : String)
  | EOF
  | ADD | SUB | MUL | DIV | MOD | POW | LPAREN | RPAREN
  | CMP_EQ | CMP_NEQ | CMP_LT | CMP_LTE | CMP_GT | CMP_GTE
  | OP_AND | OP_OR | OP_NOT | TERN | TERN_ELSE
deriving DecidableEq

/-- The token's `type` string, as the source's `Token.type` field carries
it; `Parser.eat` compares these. -/
def Token.typeStr : Token → String
  | .INTEGER _ => "INTEGER"
  | .VARIABLE _ => "VARIABLE"
  | .EOF => "EOF"
  | .ADD => "ADD"
  | .SUB => "SUB"
  | .MUL => "MUL"
  | .DIV => "DIV"
  | .MOD => "MOD"
  | .POW => "POW"
  | .LPAREN => "LPAREN"
  | .RPAREN => "RPAREN"
  | .CMP_EQ => "CMP_EQ"
  | .CMP_NEQ => "CMP_NEQ"
  | .CMP_LT => "CMP_LT"
  | .CMP_LTE => "CMP_LTE"
  | .CMP_GT => "CMP_GT"
  | .CMP_GTE => "CMP_GTE"
  | .OP_AND => "OP_AND"
  | .OP_OR => "OP_OR"
  | .OP_NOT => "OP_NOT"
  | .TERN => "TERN"
  | .TERN_ELSE => "TERN_ELSE"

/-- The embedded `OP_TYPES`: the single-character operator table of the lexer. -/
def charOp : Char → Option Token
  | '+' => some .ADD
  | '-' => some .SUB
  | '*' => some .MUL
  | '/' => some .DIV
  | '(' => some .LPAREN
  | ')' => some .RPAREN
  | '%' => some .MOD
  | '^' => some .POW
  | _ => none

/-- Skip insignificant whitespace (`Lexer.get_token`'s leading loop). -/
def skipWs : List Char → List Char
  | [] => []
  | c :: cs => if c.isWhitespace then skipWs cs else c :: cs

/-- Read a maximal digit run (`Lexer.get_integer`'s loop). -/
def readDigits : List Char → (List Char × List Char)
  | [] => ([], [])
  | c :: cs =>
    if c.isDigit then
      let (ds, r) := readDigits cs
      (c :: ds, r)
    else ([], c :: cs)

/-- Read a maximal alphabetic run (`Lexer.get_variable`'s loop). -/
def readAlpha : List Char → (List Char × List Char)
  | [] => ([], [])
  | c :: cs =>
    if c.isAlpha then
      let (as_, r) := readAlpha cs
      (c :: as_, r)
    else ([], c :: cs)

/-- Decimal value of a digit run (Python `int(num_str)`). -/
def digitsToNat (ds : List Char) : Nat :=
  ds.foldl (fun a c => a * 10 + (c.toNat - 48)) 0

/-- The embedded `Lexer.get_cmp`: the first character has already been consumed and is
`c`; `rest` is the input after it. A lone `&` or `|` is a lexical error. -/
def getCmp (c : Char) (rest : List Char) : Except PyErr (Token × List Char) :=
  if c = '=' then
    match rest with
    | '=' :: r => .ok (.CMP_EQ, r)
    | _ => .error .valueError
  else if c = '!' then
    match rest with
    | '=' :: r => .ok (.CMP_NEQ, r)
    | _ => .ok (.OP_NOT, rest)
  else if c = '<' then
    match rest with
    | '=' :: r => .ok (.CMP_LTE, r)
    | _ => .ok (.CMP_LT, rest)
  else if c = '>' then
    match rest with
    | '=' :: r => .ok (.CMP_GTE, r)
    | _ => .ok (.CMP_GT, rest)
  else if c = '?' then .ok (.TERN, rest)
  else if c = ':' then .ok (.TERN_ELSE, rest)
  else
    match rest with
    | c2 :: r =>
      if c2 = c then .ok (if c = '&' then .OP_AND else .OP_OR, r)
      else .error .valueError
    | [] => .error .valueError

/-- The embedded `Lexer.get_token`: the next token and the remaining input. The lexer is
consulted lazily, one token at a time, exactly as the source's parser pulls
tokens — trailing input beyond what the parser consumes is never lexed. -/
def getToken (cs : List Char) : Except PyErr (Token × List Char) :=
  match skipWs cs with
  | [] => .ok (.EOF, [])
  | c :: rest =>
    if c.isDigit then
      let (ds, r) := readDigits (c :: rest)
      .ok (.INTEGER (digitsToNat ds), r)
    else if c.isAlpha then
      let (as_, r) := readAlpha (c :: rest)
      if String.mk as_ = "n" then .ok (.VARIABLE "n", r)
      else .error .valueError
    else
      match charOp c with
      | some t => .ok (t, rest)
      | none =>
        if c = '<' ∨ c = '>' ∨ c = '=' ∨ c = '!' ∨ c = '?' ∨ c = ':' ∨
            c = '&' ∨ c = '|' then
          getCmp c rest
        else .error .valueError

/-- Parser state: the current token (`Parser.current_token`) and the
unconsumed lexer input (`Lexer`'s position). -/
structure PState where
  tok : Token
  chars : List Char
deriving DecidableEq

/-- The embedded `Parser.eat`: optionally assert the current token's type, then pull the
next token from the lexer. -/
def eat (expected : Option String) (st : PState) : Except PyErr PState :=
  match expected with
  | some t =>
    if st.tok.typeStr ≠ t then .error .valueError
    else do
      let (tk, r) ← getToken st.chars
      .ok ⟨tk, r⟩
  | none => do
    let (tk, r) ← getToken st.chars
    .ok ⟨tk, r⟩

mutual

/-- The embedded `Parser.factor`: integer literal, variable, or parenthesized
expression. An undefined variable or an unexpected token is a
`ValueError`. -/
def Parser.factor (vars : List (String × Int)) :
    Nat → PState → Except PyErr (PValue × PState)
  | 0, _ => .error .fuel
  | fuel + 1, st =>
    match st.tok with
    | .LPAREN => do
      let st ← eat (some "LPAREN") st
      let (result, st) ← Parser.parse vars fuel st
      let st ← eat (some "RPAREN") st
      .ok (result, st)
    | .INTEGER n => do
      let st ← eat (some "INTEGER") st
      .ok (.int n, st)
    | .VARIABLE v => do
      let st ← eat (some "VARIABLE") st
      match vars.lookup v with
      | some i => .ok (.int i, st)
      | none => .error .valueError
    | _ => .error .valueError

/-- The `while` loop of `Parser.term` over `*`, `/`, `%`, `^`. -/
def Parser.termLoop (vars : List (String × Int)) :
    Nat → PValue → PState → Except PyErr (PValue × PState)
  | 0, _, _ => .error .fuel
  | fuel + 1, result, st =>
    match st.tok with
    | .MUL => do
      let st ← eat (some "MUL") st
      let (rhs, st) ← Parser.factor vars fuel st
      Parser.termLoop vars fuel (pyMul result rhs) st
    | .DIV => do
      let st ← eat (some "DIV") st
      let (rhs, st) ← Parser.factor vars fuel st
      let v ← pyDiv result rhs
      Parser.termLoop vars fuel v st
    | .MOD => do
      let st ← eat (some "MOD") st
      let (rhs, st) ← Parser.factor vars fuel st
      let v ← pyMod result rhs
      Parser.termLoop vars fuel v st
    | .POW => do
      let st ← eat (some "POW") st
      let (rhs, st) ← Parser.factor vars fuel st
      let v ← pyPow result rhs
      Parser.termLoop vars fuel v st
    | _ => .ok (result, st)

/-- The embedded `Parser.term`: a factor followed by the multiplicative loop. -/
def Parser.term (vars : List (String × Int)) :
    Nat → PState → Except PyErr (PValue × PState)
  | 0, _ => .error .fuel
  | fuel + 1, st => do
    let (result, st) ← Parser.factor vars fuel st
    Parser.termLoop vars fuel result st

/-- The `while` loop of `Parser.parse_expression` over `+`, `-`. -/
def Parser.addLoop (vars : List (String × Int)) :
    Nat → PValue → PState → Except PyErr (PValue × PState)
  | 0, _, _ => .error .fuel
  | fuel + 1, result, st =>
    match st.tok with
    | .ADD => do
      let st ← eat (some "ADD") st
      let (t, st) ← Parser.term vars fuel st
      Parser.addLoop vars fuel (pyAdd result t) st
    | .SUB => do
      let st ← eat (some "SUB") st
      let (t, st) ← Parser.term vars fuel st
      Parser.addLoop vars fuel (pySub result t) st
    | _ => .ok (result, st)

/-- The comparison `if`/`elif` chain of `Parser.parse_expression`: at most
one comparison is applied. -/
def Parser.cmpStep (vars : List (String × Int)) :
    Nat → PValue → PState → Except PyErr (PValue × PState)
  | 0, _, _ => .error .fuel
  | fuel + 1, result, st =>
    match st.tok with
    | .CMP_EQ => do
      let st ← eat (some "CMP_EQ") st
      let (t, st) ← Parser.term vars fuel st
      .ok (pyEq result t, st)
    | .CMP_NEQ => do
      let st ← eat (some "CMP_NEQ") st
      let (t, st) ← Parser.term vars fuel st
      .ok (pyNeq result t, st)
    | .CMP_LTE => do
      let st ← eat (some "CMP_LTE") st
      let (t, st) ← Parser.term vars fuel st
      .ok (pyLte result t, st)
    | .CMP_GTE => do
      let st ← eat (some "CMP_GTE") st
      let (t, st) ← Parser.term vars fuel st
      .ok (pyGte result t, st)
    | .CMP_LT => do
      let st ← eat (some "CMP_LT") st
      let (t, st) ← Parser.term vars fuel st
      .ok (pyLt result t, st)
    | .CMP_GT => do
      let st ← eat (some "CMP_GT") st
      let (t, st) ← Parser.term vars fuel st
      .ok (pyGt result t, st)
    | _ => .ok (result, st)

/-- The logical `while` loop closing `Parser.parse_expression`: on `&&` the
result is combined and the loop continues; on `||` the function RETURNS
immediately (source line `return result or next_result`). Either way the
right operand is a full recursive `parse_expression`, so a chain
`a OP b OP c` associates to the right. -/
def Parser.logicLoop (vars : List (String × Int)) :
    Nat → PValue → PState → Except PyErr (PValue × PState)
  | 0, _, _ => .error .fuel
  | fuel + 1, result, st =>
    match st.tok with
    | .OP_AND => do
      let st ← eat none st
      let (next_result, st) ← Parser.parse_expression vars fuel st
      Parser.logicLoop vars fuel (pyAnd result next_result) st
    | .OP_OR => do
      let st ← eat none st
      let (next_result, st) ← Parser.parse_expression vars fuel st
      .ok (pyOr result next_result, st)
    | _ => .ok (result, st)

/-- The embedded `Parser.parse_expression`: leading `!`, additive chain, at most one
comparison, then the logical loop. -/
def Parser.parse_expression (vars : List (String × Int)) :
    Nat → PState → Except PyErr (PValue × PState)
  | 0, _ => .error .fuel
  | fuel + 1, st =>
    match st.tok with
    | .OP_NOT => do
      let st ← eat (some "OP_NOT") st
      let (v, st) ← Parser.parse_expression vars fuel st
      .ok (pyNot v, st)
    | _ => do
      let (result, st) ← Parser.term vars fuel st
      let (result, st) ← Parser.addLoop vars fuel result st
      let (result, st) ← Parser.cmpStep vars fuel result st
      Parser.logicLoop vars fuel result st

/-- The embedded `Parser.parse`: an expression, optionally completed into a ternary.
Both branches of the ternary are evaluated (the source is an evaluator, not
a lazy tree), then one is selected by the condition's truthiness. -/
def Parser.parse (vars : List (String × Int)) :
    Nat → PState → Except PyErr (PValue × PState)
  | 0, _ => .error .fuel
  | fuel + 1, st => do
    let (result, st) ← Parser.parse_expression vars fuel st
    match st.tok with
    | .TERN => do
      let st ← eat (some "TERN") st
      let (if_true, st) ← Parser.parse vars fuel st
      let st ← eat (some "TERN_ELSE") st
      let (if_false, st) ← Parser.parse vars fuel st
      .ok (if pyTruthy result then if_true else if_false, st)
    | _ => .ok (result, st)

end

/-- Recursion fuel for a formula: generously larger than any call depth the
fueled parser can reach on an input of this length, so the `.fuel` branch is
never taken by the entry points. -/
def parse_fuel (s : String) : Nat := 8 * s.length + 16

/-- Module-level `parse(_expr, **variables)`: build the lexer and parser and
return `parser.parse()`. The remaining parser state — current token and
unread input — is DISCARDED without checking that the token stream is
exhausted. -/
def parse (_expr : String) (vars : List (String × Int)) :
    Except PyErr PValue := do
  let (t, r) ← getToken _expr.toList
  let (v, _) ← Parser.parse vars (parse_fuel _expr) ⟨t, r⟩
  .ok v

/-- Python `str.split(sep)` for a one-character separator: splitting an
empty string yields `[""]`, a separator at either end yields an empty
field. -/
def pySplit (sep : Char) : List Char → List (List Char)
  | [] => [[]]
  | c :: rest =>
    let r := pySplit sep rest
    if c = sep then [] :: r
    else (c :: r.headD []) :: r.tail

/-- Python `str.strip()`: drop whitespace from both ends. -/
def pyStrip (cs : List Char) : List Char :=
  ((cs.dropWhile Char.isWhitespace).reverse.dropWhile Char.isWhitespace).reverse

/-- The text after the first `=`, i.e. `s.split("=", 1)[1]`; `none` stands
for the `IndexError` of a missing `=`. -/
def afterFirstEq : List Char → Option (List Char)
  | [] => none
  | c :: cs => if c = '=' then some cs else afterFirstEq cs

/-- Python `int()` on a string: strip whitespace, optional sign, digits;
`ValueError` (here `none`) otherwise. -/
def pyInt (cs : List Char) : Option Int :=
  match pyStrip cs with
  | '-' :: ds =>
    if ds ≠ [] ∧ ds.all Char.isDigit then some (-(digitsToNat ds : Int)) else none
  | '+' :: ds =>
    if ds ≠ [] ∧ ds.all Char.isDigit then some ((digitsToNat ds : Int)) else none
  | ds =>
    if ds ≠ [] ∧ ds.all Char.isDigit then some ((digitsToNat ds : Int)) else none

/-- The embedded `parse_line`: split the plural line on `;`, unpack the first two fields
(`ValueError` when fewer), read the integer after the first field's `=`
(`split("=")[1]`: the segment between the first and second `=`;
`IndexError` when there is no `=`, `ValueError` when it is no integer), and
take the stripped text after the second field's FIRST `=` as the expression
(`split("=", 1)[1]`; `IndexError` when it has no `=`). -/
def parse_line (line : String) : Except PyErr (Int × String) :=
  match pySplit ';' line.toList with
  | nplurals_str :: expr0 :: _ =>
    match afterFirstEq nplurals_str with
    | Option.none => .error .indexError
    | Option.some cs =>
      match pyInt (pyStrip (cs.takeWhile (fun c => c ≠ '='))) with
      | Option.none => .error .valueError
      | Option.some nplurals =>
        match afterFirstEq expr0 with
        | Option.some expr => .ok (nplurals, String.mk (pyStrip expr))
        | Option.none => .error .indexError
  | _ => .error .valueError

/-- One bucket yielded by `group` (the source's `GroupDict`). -/
structure GroupDict where
  group : Nat
  values : List Nat
  has_more : Bool
deriving DecidableEq

/-- The dict key a formula result selects in `groups[parse(expr, n=i)]`:
Python `bool` is an `int` for hashing and equality, so a `True` result
appends to bucket 1 and `False` to bucket 0. -/
def pyIndex : PValue → Int
  | .int i => i
  | .bool b => if b then 1 else 0

/-- The `for i in range(max_n + 1)` loop of `group`: evaluate the formula at
each `n` (in ascending order, so every bucket's list is ascending) and
append `n` to the selected bucket; a key outside the initialized
`0..nplurals-1` raises `KeyError`. -/
def groupFill (ev : Nat → Except PyErr PValue) :
    List Nat → List (List Nat) → Except PyErr (List (List Nat))
  | [], gs => .ok gs
  | n :: ns, gs =>
    match ev n with
    | .error e => .error e
    | .ok v =>
      let j := pyIndex v
      if 0 ≤ j ∧ j.toNat < gs.length then
        groupFill ev ns (gs.set j.toNat (gs.getD j.toNat [] ++ [n]))
      else .error .keyError

/-- The `for i, grp in sorted(groups.items())` loop of `group`: the dict's
keys are exactly `0..nplurals-1` in ascending insertion order, so sorted
enumeration is position-indexed traversal of the bucket lists. -/
def enumBuckets (per_group : Nat) (i : Nat) : List (List Nat) → List GroupDict
  | [] => []
  | grp :: gs =>
    ⟨i, grp.take per_group, decide (per_group < grp.length)⟩ ::
      enumBuckets per_group (i + 1) gs

/-- The embedded `group`: parse the plural line, initialize one empty bucket per
declared plural index, fill them over `0..=max_n`, and emit each bucket with
at most `per_group` sample values and a has-more flag. -/
def group (plural_line : String) (max_n : Nat) (per_group : Nat) :
    Except PyErr (List GroupDict) :=
  match parse_line plural_line with
  | .error e => .error e
  | .ok (nplurals, expr) =>
    match groupFill (fun i => parse expr [("n", (i : Int))])
        (List.range (max_n + 1)) (List.replicate nplurals.toNat []) with
    | .error e => .error e
    | .ok gs => .ok (enumBuckets per_group 0 gs)

/-! ### `pox/plurals.py` -/

/-- Match `nplurals=<digits>;` at the head of the input: the literal, then a
non-empty digit run, then `;`; yields the digit group. -/
def dropLit : List Char → List Char → Option (List Char)
  | [], cs => some cs
  | _, [] => none
  | l :: ls, c :: cs => if c = l then dropLit ls cs else none

def matchNpluralsAt (cs : List Char) : Option (List Char) :=
  match dropLit "nplurals=".toList cs with
  | Option.none => none
  | Option.some rest =>
    let (ds, r) := readDigits rest
    if ds = [] then none
    else
      match r with
      | ';' :: _ => some ds
      | _ => none

/-- The embedded `RE_PLURAL_COUNT.search`: the digit group of the leftmost occurrence of
`nplurals=(?P<num>\d+);`. -/
def reSearchNplurals : List Char → Option (List Char)
  | [] => none
  | c :: cs =>
    match matchNpluralsAt (c :: cs) with
    | Option.some ds => some ds
    | Option.none => reSearchNplurals cs

/-- Render one collapsed run: `"a"` for a singleton, `"a-b"` otherwise
(`_format_values`, lines 33 and 35). -/
def fvRender (start prev : Nat) : String :=
  if start = prev then toString start else toString start ++ "-" ++ toString prev

/-- The `for v in values[1:]` loop of `_format_values`, carrying the
accumulated `parts` and the open run `start..prev`. -/
def fvLoop (parts : List String) (start prev : Nat) :
    List Nat → List String
  | [] => parts ++ [fvRender start prev]
  | v :: vs =>
    if v = prev + 1 then fvLoop parts start v vs
    else fvLoop (parts ++ [fvRender start prev]) v v vs

def MAX_RANGE_PARTS : Nat := 2

/-- The embedded `_format_values`: collapse consecutive integers into range notation,
keep the first `MAX_RANGE_PARTS` parts, and append `", ..."` when parts were
dropped or the bucket has more values. An empty sample renders as `""`. -/
def _format_values (values : List Nat) (has_more : Bool) : String :=
  match values with
  | [] => ""
  | v :: vs =>
    let parts := fvLoop [] v v vs
    let truncated := decide (MAX_RANGE_PARTS < parts.length) || has_more
    let result := String.intercalate ", " (parts.take MAX_RANGE_PARTS)
    if truncated then result ++ ", ..." else result

/-- The label built for one bucket in `get_plural_hints`'s loop (lines
70-73): `"Singular"` when the literal value 1 is in the sample, else
`"Plural"`, then `", n = "` and the collapsed sample. -/
def hint_label (g : GroupDict) : String :=
  let formatted := _format_values g.values g.has_more
  let label := if g.values.contains 1 then "Singular" else "Plural"
  label ++ ", n = " ++ formatted

/-- The universal two-bucket fallback of `get_plural_hints`. -/
def default_form : List (Nat × String) := [(0, "Singular"), (1, "Plural")]

/-- The embedded `get_plural_hints`: absent or empty header, or no parseable
`nplurals=<num>;`, falls back to `default_form`; otherwise buckets are
enumerated (`group`, `per_group=1000`, default `max_n=999`) and labelled;
`ValueError`/`TypeError`/`KeyError` during enumeration degrade to the
generic per-index labels — any other exception propagates. -/
def get_plural_hints (plural_form : Option String) :
    Except PyErr (List (Nat × String)) :=
  match plural_form with
  | Option.none => .ok default_form
  | Option.some pf =>
    if pf = "" then .ok default_form
    else
      match reSearchNplurals pf.toList with
      | Option.none => .ok default_form
      | Option.some numDigits =>
        match group pf 999 1000 with
        | .ok gs => .ok (gs.map fun g => (g.group, hint_label g))
        | .error e =>
          if e = .valueError ∨ e = .typeError ∨ e = .keyError then
            .ok ((List.range (digitsToNat numDigits)).map
              fun i => (i, "Plural Form " ++ toString (i + 1)))
          else .error e

/-! ### `pox/datastructures.py` and the table encoder
(`pox/spreadsheet.py`, `SpreadsheetGenerator.get_tabledata`) -/

/-- The embedded `SingularTranslation | PluralTranslation`: a plural translation's
`msgstr` is an int-keyed dict, modelled as an insertion-ordered association
list (first binding wins). -/
inductive Translation
  | singular (msgid : String) (msgstr : String)
  | plural (msgid : String) (msgstr : List (Nat × String))
deriving DecidableEq

structure Message where
  translation : Translation
  context : Option String
  comment : Option String
  tcomment : Option String
  obsolete : Bool
deriving DecidableEq

/-- The embedded `Message.is_plural`: derived from the translation variant. -/
def Message.is_plural (m : Message) : Bool :=
  match m.translation with
  | .plural _ _ => true
  | .singular _ _ => false

def Translation.msgid : Translation → String
  | .singular i _ => i
  | .plural i _ => i

/-- Python `dict.get(k, default)`. -/
def dget (d : List (Nat × String)) (k : Nat) (dflt : String) : String :=
  match d.lookup k with
  | Option.some v => v
  | Option.none => dflt

/-- Python `dict.values()` in insertion order. -/
def dvalues (d : List (Nat × String)) : List String := d.map Prod.snd

/-- The closed style registry the encoder tags cells with
(`pox/styles.py`, `SpreadsheetStyles`). -/
inductive Style
  | HEADER | ID | CONTEXT | MSG_ID | MSG_STR_OBSOLETE | MSG_STR_EMPTY
deriving DecidableEq

/-- A scalar cell value as the spreadsheet collaborator carries it. -/
inductive Cell
  | str (s : String)
  | int (n : Nat)
  | none
deriving DecidableEq

def optCell : Option String → Cell
  | Option.none => Cell.none
  | Option.some s => Cell.str s

/-- The embedded `len(context.plural_form_hints or {})`. -/
def num_plurals (hints : Option (List (Nat × String))) : Nat :=
  (hints.getD []).length

/-- The embedded `has_plurals = num_plurals >= 2 and any(m.is_plural for m in messages)`. -/
def has_plurals (hints : Option (List (Nat × String))) (messages : List Message) : Bool :=
  decide (2 ≤ num_plurals hints) && messages.any Message.is_plural

/-- Extra columns beyond the base Translation column. -/
def extra_cols (hints : Option (List (Nat × String))) (messages : List Message) : Nat :=
  if has_plurals hints messages then num_plurals hints - 1 else 0

/-- The base translation column's header text. -/
def base_translation_label (hints : Option (List (Nat × String)))
    (messages : List Message) : String :=
  if has_plurals hints messages then
    "Translation (" ++ dget (hints.getD []) 0 "Singular" ++ ")"
  else "Translation"

/-- Header text of extra plural column `i` (`i` in `1..num_plurals-1`). -/
def extra_translation_label (hl : List (Nat × String)) (i : Nat) : String :=
  "Translation (" ++ dget hl i ("Plural Form " ++ toString (i + 1)) ++ ")"

/-- The header row of `get_tabledata`: 4 fixed columns, plus one
`Translation (<hint>)` column per extra plural form when plurals are
present. -/
def table_header (hints : Option (List (Nat × String))) (messages : List Message) :
    List (Cell × Option Style) :=
  [(Cell.str "id", some Style.HEADER),
   (Cell.str "Context", some Style.HEADER),
   (Cell.str "Singular Form", some Style.HEADER),
   (Cell.str (base_translation_label hints messages), some Style.HEADER)]
  ++ (if has_plurals hints messages then
        (List.range' 1 (num_plurals hints - 1)).map fun i =>
          (Cell.str (extra_translation_label (hints.getD []) i), some Style.HEADER)
      else [])

/-- The per-message target style (`get_tabledata` lines 152-165): start
from `MSG_ID`; an obsolete message gets `MSG_STR_OBSOLETE`, else an empty
singular target gets `MSG_STR_EMPTY`; then, for a plural message ONLY, any
empty form overrides whatever was chosen — including the obsolete style —
with `MSG_STR_EMPTY`. -/
def msg_str_style (m : Message) : Style :=
  let s :=
    if m.obsolete then Style.MSG_STR_OBSOLETE
    else
      match m.translation with
      | .singular _ t => if t = "" then Style.MSG_STR_EMPTY else Style.MSG_ID
      | .plural _ _ => Style.MSG_ID
  match m.translation with
  | .plural _ d => if (dvalues d).any (fun v => v == "") then Style.MSG_STR_EMPTY else s
  | .singular _ _ => s

/-- The loop body of `get_tabledata` for message `m` at 0-based position
`i`: the id cell is `i + 1`; an obsolete message writes the literal
`"obsolete"` over its context; a plural row carries form 0 in the base
column and forms `1..np-1` in the extra columns, a singular row carries its
one target and `ec` blank filler cells with no style. -/
def message_row (np ec : Nat) (i : Nat) (m : Message) : List (Cell × Option Style) :=
  let style := msg_str_style m
  match m.translation with
  | .plural msgid d =>
    [(Cell.int (i + 1), some Style.ID),
     (if m.obsolete then Cell.str "obsolete" else optCell m.context, some Style.CONTEXT),
     (Cell.str msgid, some Style.MSG_ID),
     (Cell.str (dget d 0 ""), some style)]
    ++ (List.range' 1 (np - 1)).map (fun pi => (Cell.str (dget d pi ""), some style))
  | .singular msgid msgstr =>
    [(Cell.int (i + 1), some Style.ID),
     (if m.obsolete then Cell.str "obsolete" else optCell m.context, some Style.CONTEXT),
     (Cell.str msgid, some Style.MSG_ID),
     (Cell.str msgstr, some style)]
    ++ List.replicate ec (Cell.str "", Option.none)

/-- The `for i, m in enumerate(messages)` loop of `get_tabledata`. -/
def tabledata_rows (np ec : Nat) (i : Nat) :
    List Message → List (List (Cell × Option Style))
  | [] => []
  | m :: ms => message_row np ec i m :: tabledata_rows np ec (i + 1) ms

/-- The embedded `SpreadsheetGenerator.get_tabledata`: the header row followed by one row
per message, in message order. -/
def get_tabledata (messages : List Message) (hints : Option (List (Nat × String))) :
    List (List (Cell × Option Style)) :=
  table_header hints messages ::
    tabledata_rows (num_plurals hints) (extra_cols hints messages) 0 messages

/-- The embedded `generate` hands the spreadsheet writer only the VALUES of each row
(`ws.append([cell[0] for cell in row])`); this is the grid the decoder later
reads back. -/
def gridValues (g : List (List (Cell × Option Style))) : List (List Cell) :=
  g.map (List.map Prod.fst)

/-! ### The table decoder (`pox/cli/xop_convert.py`,
`Excel2PoConverter.convert_xlsx`, lines 62-110) -/

/-- The polib entry fields the decoder sets. -/
structure POEntry where
  msgid : String
  msgid_plural : Option String
  msgstr : String
  msgstr_plural : List (Nat × String)
  msgctxt : Option String
  obsolete : Bool
deriving DecidableEq

/-- Python truthiness of a scalar cell value. -/
def cellTruthy : Cell → Bool
  | .str s => s != ""
  | .int n => n != 0
  | .none => false

/-- Python `cell == "obsolete"` (never true for `None` or an integer). -/
def cellIsObsolete : Cell → Bool
  | .str s => s == "obsolete"
  | _ => false

/-- Python `str(cell)`, used on header cells (always strings). -/
def cellStr : Cell → String
  | .str s => s
  | .int n => toString n
  | .none => "None"

/-- Python `val or ""` on a data cell: a string keeps its value (an empty
string stays empty), `None` becomes `""`. The encoder writes integers only
into the id column, which never reaches this coercion; an integer is
rendered decimally to keep the function total. -/
def cellOrEmpty : Cell → String
  | .str s => s
  | .int n => if n = 0 then "" else toString n
  | .none => ""

/-- Python `str.startswith(p)`. -/
def strStarts (p s : List Char) : Bool :=
  match p, s with
  | [], _ => true
  | _ :: _, [] => false
  | a :: ps, c :: cs => a == c && strStarts ps cs

/-- The embedded `num_translation_cols`: count the header cells from index 3 on that are
truthy and whose text starts with `"Translation"`. -/
def num_translation_cols (header_row : List Cell) : Nat :=
  ((header_row.drop 3).filter fun h =>
    cellTruthy h && strStarts "Translation".toList (cellStr h).toList).length

/-- The plural form map built by `convert_xlsx`'s plural branch:
`msgstr_plural[pi] = (row[3+pi] if 3+pi < len(row) else "") or ""`. -/
def plural_cols (k : Nat) (row : List Cell) : List (Nat × String) :=
  (List.range k).map (fun pi =>
    (pi, if 3 + pi < row.length then cellOrEmpty (row.getD (3 + pi) Cell.none) else ""))

/-- One iteration of `convert_xlsx`'s row loop: `none` when the row is
skipped (empty row, or an id cell that is `None` or `""`). The decoded
context drops a blank cell and the literal `"obsolete"` (which instead sets
the obsolete flag). With more than one translation column every row becomes
a plural entry over columns `3..3+k-1` (missing trailing cells read as
`""`); otherwise a singular entry from column 3. -/
def decode_row (k : Nat) (row : List Cell) : Option POEntry :=
  if row = [] ∨ row.getD 0 Cell.none = Cell.none ∨ row.getD 0 Cell.none = Cell.str "" then
    none
  else
    let c1 := row.getD 1 Cell.none
    let context :=
      if cellTruthy c1 && !cellIsObsolete c1 then
        match c1 with
        | Cell.str s => some s
        | Cell.int n => some (toString n)
        | Cell.none => none
      else none
    let obsolete := cellIsObsolete c1
    let msgid := cellOrEmpty (row.getD 2 Cell.none)
    if 1 < k then
      some ⟨msgid, some msgid, "", plural_cols k row, context, obsolete⟩
    else
      some ⟨msgid, Option.none,
        (if 3 < row.length then cellOrEmpty (row.getD 3 Cell.none) else ""),
        [], context, obsolete⟩

/-- The decoding core of `Excel2PoConverter.convert_xlsx`: fail
(`self.fail`) with fewer than two rows, read the translation-column count
from the header row, then decode the data rows in order, skipping blanks. -/
def convert_xlsx (rows : List (List Cell)) : Except PyErr (List POEntry) :=
  if rows.length < 2 then .error .shapeError
  else
    let k := num_translation_cols (rows.headD [])
    .ok ((rows.drop 1).filterMap (decode_row k))

/-! ### The compared round-trip tuples -/

/-- The target side of a round-trip tuple: a single text for a singular
entry, a form-indexed map for a plural entry. -/
inductive Target
  | text (s : String)
  | map (m : List (Nat × String))
deriving DecidableEq

/-- The `(context, source_text, target_text_or_map, obsolete)` tuple of a
catalog message. -/
def Message.tuple (m : Message) : Option String × String × Target × Bool :=
  match m.translation with
  | .singular i t => (m.context, i, Target.text t, m.obsolete)
  | .plural i d => (m.context, i, Target.map d, m.obsolete)

/-- The same tuple read off a decoded po entry: the entry is plural exactly
when `msgid_plural` is set. -/
def POEntry.tuple (e : POEntry) : Option String × String × Target × Bool :=
  (e.msgctxt, e.msgid,
    (match e.msgid_plural with
     | Option.some _ => Target.map e.msgstr_plural
     | Option.none => Target.text e.msgstr),
    e.obsolete)

/-- A boolean atom rendered as formula text. -/
def boolAtom (b : Bool) : String := if b then "1==1" else "1==0"

/-- A logical operator rendered as formula text: `true` is `||`. -/
def lopStr (o : Bool) : String := if o then " || " else " && "

/-- The formula `a OP1 b OP2 c` as text. -/
def chain3 (a : Bool) (o1 : Bool) (b : Bool) (o2 : Bool) (c : Bool) : String :=
  boolAtom a ++ lopStr o1 ++ boolAtom b ++ lopStr o2 ++ boolAtom c

/-- The meaning of a logical operator on booleans: `true` is or. -/
def lopSem (o : Bool) (x y : Bool) : Bool := if o then (x || y) else (x && y)

/-- The generic labels used when enumeration fails but `nplurals` parsed. -/
def genericLabels (num : Nat) : List (Nat × String) :=
  (List.range num).map fun i => (i, "Plural Form " ++ toString (i + 1))

/-- Written from the spec's words (§4.2), for comparison with the embedded
`_format_values`: the maximal runs of consecutive integers of the sample,
as `(first, last)` pairs. -/
def specRunsAux (start prev : Nat) : List Nat → List (Nat × Nat)
  | [] => [(start, prev)]
  | v :: vs =>
    if v = prev + 1 then specRunsAux start v vs
    else (start, prev) :: specRunsAux v v vs

/-- The runs of an ascending sample (spec side). -/
def specRuns : List Nat → List (Nat × Nat)
  | [] => []
  | v :: vs => specRunsAux v v vs

/-- A run rendered as the spec words it: a bare integer for a singleton,
`"a-b"` otherwise. -/
def specRender (p : Nat × Nat) : String :=
  if p.1 = p.2 then toString p.1 else toString p.1 ++ "-" ++ toString p.2

/-- The filling loop's pure effect once every evaluation is known to
succeed with an in-range index: the same per-step bucket update without the
exception plumbing. -/
def specFill (idxf : Nat → Nat) : List Nat → List (List Nat) → List (List Nat)
  | [], gs => gs
  | n :: ns, gs => specFill idxf ns (gs.set (idxf n) (gs.getD (idxf n) [] ++ [n]))

/-- A context value that survives the Context cell: absent, or a nonempty
string other than the reserved literal `"obsolete"`. -/
def ctxOkB (m : Message) : Bool :=
  match m.context with
  | Option.none => true
  | Option.some s => s != "" && s != "obsolete"

/-- An obsolete message carries no context (the encoder overwrites it). -/
def obsCtxOkB (m : Message) : Bool := !m.obsolete || m.context == Option.none

/-- A plural message's form map is dense over the declared `0..n-1`. -/
def pluralKeysOkB (n : Nat) (m : Message) : Bool :=
  match m.translation with
  | .plural _ d => d.map Prod.fst == List.range n
  | .singular _ _ => true

/-- The tuple the decoder recovers for a message: a plural entry (or any
entry of a catalog WITHOUT plurals) round-trips exactly; a singular entry
of a catalog WITH plural columns comes back as a plural entry whose form 0
holds the target text and whose other forms are empty. -/
def roundtripTuple (hasP : Bool) (n : Nat) (m : Message) :
    Option String × String × Target × Bool :=
  match m.translation with
  | .plural i d => (m.context, i, Target.map d, m.obsolete)
  | .singular i t =>
    (m.context, i,
     (if hasP then
        Target.map ((0, t) :: (List.range' 1 (n - 1)).map (fun pi => (pi, "")))
      else Target.text t),
     m.obsolete)

/-- A concrete mixed catalog for the C1 witness: a singular entry with a
context, a plural entry with an empty second form, and an obsolete
entry. -/
def C1msgs : List Message :=
  [⟨Translation.singular "a" "x", some "note", Option.none, Option.none, false⟩,
   ⟨Translation.plural "b" [(0, "y"), (1, "")], Option.none, Option.none,
    Option.none, false⟩,
   ⟨Translation.singular "c" "w", Option.none, Option.none, Option.none, true⟩]

/-! ## Claims -/

/-! ### C3 — `&&`/`||` chaining -/

/-- C3, counterexample: the claim says `evaluate "1==1 || 1==1 && 1==0"`
equals `((1==1 || 1==1) && 1==0)`, i.e. false; the code evaluates it to
true. -/
theorem C3_counterexample :
    parse "1==1 || 1==1 && 1==0" [] = .ok (PValue.bool true) ∧
      Except.ok (PValue.bool true) ≠
        (Except.ok (PValue.bool false) : Except PyErr PValue) := by
  constructor
  · decide
  · decide

/-- C3, amended: `&&` and `||` are parsed at the same precedence level but
a chain `a OP1 b OP2 c` groups to the RIGHT, `a OP1 (b OP2 c)` — the loop
in `parse_expression` takes the whole remaining expression as the right
operand — so `"1==1 || 1==1 && 1==0"` is `(1==1) || ((1==1) && (1==0))`,
i.e. true. -/
theorem C3_amended : ∀ a o1 b o2 c : Bool,
    parse (chain3 a o1 b o2 c) [] =
      .ok (.bool (lopSem o1 a (lopSem o2 b c))) := by decide

/-! ### C8 — trailing tokens are ignored -/

/-- C8: the module-level `parse` returns `parser.parse()` without checking
that the token stream is exhausted: whenever the recursive-descent parser
succeeds with ANY leftover state, `parse` succeeds with that value; on
`"1 < 2 < 3"` it stops at the second `<` (comparisons do not chain) and
returns `true`, on `"5 7"` it stops at the token `7` and returns `5`,
silently ignoring the trailing tokens. -/
theorem C8_trailing_tokens :
    (∀ (s : String) (vars : List (String × Int)) (v : PValue) (stf : PState)
        (t : Token) (r : List Char),
      getToken s.toList = Except.ok (t, r) →
      Parser.parse vars (parse_fuel s) ⟨t, r⟩ = Except.ok (v, stf) →
      parse s vars = Except.ok v)
    ∧ parse "1 < 2 < 3" [] = Except.ok (PValue.bool true)
    ∧ Parser.parse [] (parse_fuel "1 < 2 < 3") ⟨Token.INTEGER 1, " < 2 < 3".toList⟩
        = Except.ok (PValue.bool true, ⟨Token.CMP_LT, " 3".toList⟩)
    ∧ parse "5 7" [] = Except.ok (PValue.int 5)
    ∧ Parser.parse [] (parse_fuel "5 7") ⟨Token.INTEGER 5, " 7".toList⟩
        = Except.ok (PValue.int 5, ⟨Token.INTEGER 7, []⟩) := by
  refine ⟨?_, by decide, by decide, by decide, by decide⟩
  intro s vars v stf t r h1 h2
  have h1d : getToken s.data = Except.ok (t, r) := h1
  simp [parse, h1d, h2, Bind.bind, Except.bind]

/-! ### C9 — the context value `"obsolete"` is reserved -/

/-- C9: a non-obsolete message whose context is the literal `"obsolete"`
is encoded with `"obsolete"` in its Context cell, and the decoder turns
that row into an obsolete entry with no context — the message cannot
round-trip with its context and non-obsolete status intact. -/
theorem C9_obsolete_context_reserved (m : Message) (np ec i k : Nat)
    (h1 : m.obsolete = false) (h2 : m.context = some "obsolete") :
    ((message_row np ec i m).map Prod.fst)[1]? = some (Cell.str "obsolete")
    ∧ (decode_row k ((message_row np ec i m).map Prod.fst)).map
        (fun e => (e.obsolete, e.msgctxt)) = some (true, Option.none) := by
  obtain ⟨tr, ctx, cm, tc, ob⟩ := m
  simp only at h1 h2
  subst h1; subst h2
  have hobs : cellIsObsolete (Cell.str "obsolete") = true := by decide
  have htr : cellTruthy (Cell.str "obsolete") = true := by decide
  cases tr with
  | singular a b =>
    refine ⟨by simp [message_row, optCell], ?_⟩
    simp only [message_row, optCell, List.map_append, List.map_cons]
    by_cases hk : 1 < k <;>
      simp [decode_row, hk, hobs, htr]
  | plural a d =>
    refine ⟨by simp [message_row, optCell], ?_⟩
    simp only [message_row, optCell, List.map_append, List.map_cons]
    by_cases hk : 1 < k <;>
      simp [decode_row, hk, hobs, htr]

/-- Witness for C9 at a concrete message. -/
theorem C9_witness :
    let m : Message :=
      ⟨Translation.singular "src" "tgt", some "obsolete", Option.none, Option.none, false⟩
    ((message_row 2 1 0 m).map Prod.fst)[1]? = some (Cell.str "obsolete")
    ∧ (decode_row 2 ((message_row 2 1 0 m).map Prod.fst)).map
        (fun e => (e.obsolete, e.msgctxt)) = some (true, Option.none) :=
  C9_obsolete_context_reserved _ 2 1 0 2 rfl rfl

/-! ### C5 — hint-generation error handling -/

/-- C5, counterexample: the claim says a failing bucket enumeration with a
parseable `nplurals = 2` yields the two generic labels and no error ever
propagates; but on the header `"nplurals=2; x"` (the regex finds
`nplurals=2;`, yet the second `;`-field has no `=`) `group` raises
`IndexError`, which the `except (ValueError, TypeError, KeyError)` clause
does not catch, so `get_plural_hints` propagates it. -/
theorem C5_counterexample :
    get_plural_hints (some "nplurals=2; x") = .error .indexError ∧
      get_plural_hints (some "nplurals=2; x") ≠
        .ok [(0, "Plural Form 1"), (1, "Plural Form 2")] := by
  constructor
  · decide
  · decide

/-- C5, amended: when bucket enumeration fails with `ValueError`,
`TypeError` or `KeyError` and the header has a parseable `nplurals=k;`,
`get_plural_hints` returns the `k` generic labels; an absent or empty
header, or one with no parseable `nplurals`, yields the two-bucket
Singular/Plural default; but an enumeration failure OUTSIDE those three
exception classes (e.g. the `IndexError` of a second field without `=`, or
a `ZeroDivisionError` in the formula) propagates to the caller. -/
theorem C5_amended :
    (∀ (s : String) (ds : List Char) (e : PyErr),
      reSearchNplurals s.toList = some ds →
      group s 999 1000 = .error e →
      (e = .valueError ∨ e = .typeError ∨ e = .keyError) →
      get_plural_hints (some s) = .ok (genericLabels (digitsToNat ds)))
    ∧ (∀ s : String, reSearchNplurals s.toList = none →
        get_plural_hints (some s) = .ok default_form)
    ∧ get_plural_hints Option.none = .ok default_form
    ∧ get_plural_hints (some "") = .ok default_form
    ∧ (∀ (s : String) (ds : List Char) (e : PyErr),
      reSearchNplurals s.toList = some ds →
      group s 999 1000 = .error e →
      ¬(e = .valueError ∨ e = .typeError ∨ e = .keyError) →
      get_plural_hints (some s) = .error e) := by
  have hne : ∀ s : String, s ≠ "" → (if s = "" then true else false) = false := by
    intro s h; simp [h]
  refine ⟨?_, ?_, by decide, by decide, ?_⟩
  · intro s ds e hre hgr he
    have hs : s ≠ "" := by
      intro h; subst h; simp [reSearchNplurals] at hre
    have hre2 : reSearchNplurals s.data = some ds := hre
    simp [get_plural_hints, hs, hre2, hgr, he, genericLabels]
  · intro s hre
    by_cases hs : s = ""
    · subst hs; decide
    · have hre2 : reSearchNplurals s.data = none := hre
      simp [get_plural_hints, hs, hre2]
  · intro s ds e hre hgr he
    have hs : s ≠ "" := by
      intro h; subst h; simp [reSearchNplurals] at hre
    have hre2 : reSearchNplurals s.data = some ds := hre
    simp [get_plural_hints, hs, hre2, hgr, he]

/-! ### C6 — no plural messages, exactly one translation column -/

/-- Every data row of a catalog without plural messages has 4 cells,
whatever `np` the header declares. -/
theorem tabledata_rows_len4 (np : Nat) (ms : List Message) :
    ∀ (i : Nat), (∀ m ∈ ms, m.is_plural = false) →
    ∀ row ∈ tabledata_rows np 0 i ms, row.length = 4 := by
  induction ms with
  | nil => intro i _ row hrow; simp [tabledata_rows] at hrow
  | cons m tl ih =>
    intro i h row hrow
    simp only [tabledata_rows, List.mem_cons] at hrow
    rcases hrow with h1 | h2
    · subst h1
      have hm := h m (List.mem_cons_self m tl)
      obtain ⟨tr, ctx, cm, tc, ob⟩ := m
      cases tr with
      | singular a b => simp [message_row]
      | plural a d => simp [Message.is_plural] at hm
    · exact ih (i + 1) (fun x hx => h x (List.mem_cons_of_mem m hx)) row h2

/-- C6: a catalog with no plural message yields a grid of exactly 4 columns
— one translation column — no matter how many plural forms the header's
hints declare. -/
theorem C6_singular_four_columns (messages : List Message)
    (hints : Option (List (Nat × String)))
    (h : messages.any Message.is_plural = false) :
    (∀ row ∈ get_tabledata messages hints, row.length = 4)
    ∧ num_translation_cols ((gridValues (get_tabledata messages hints)).headD []) = 1 := by
  have hp : has_plurals hints messages = false := by
    simp [has_plurals, h]
  have hec : extra_cols hints messages = 0 := by simp [extra_cols, hp]
  have hall : ∀ m ∈ messages, m.is_plural = false := by
    intro m hm
    have := List.any_eq_false.mp h m hm
    simpa using this
  constructor
  · intro row hrow
    simp only [get_tabledata, List.mem_cons] at hrow
    rcases hrow with h1 | h2
    · subst h1; simp [table_header, hp]
    · rw [hec] at h2
      exact tabledata_rows_len4 _ messages 0 hall row h2
  · have hh : table_header hints messages =
        [(Cell.str "id", some Style.HEADER),
         (Cell.str "Context", some Style.HEADER),
         (Cell.str "Singular Form", some Style.HEADER),
         (Cell.str "Translation", some Style.HEADER)] := by
      simp [table_header, hp, base_translation_label]
    simp only [get_tabledata, gridValues, List.map_cons, List.headD_cons, hh]
    decide

/-- Witness for C6 at a concrete catalog declaring 3 plural forms but
holding only a singular message. -/
theorem C6_witness :
    (∀ row ∈ get_tabledata
        [⟨Translation.singular "a" "x", Option.none, Option.none, Option.none, false⟩]
        (some [(0, "one"), (1, "few"), (2, "many")]), row.length = 4)
    ∧ num_translation_cols ((gridValues (get_tabledata
        [⟨Translation.singular "a" "x", Option.none, Option.none, Option.none, false⟩]
        (some [(0, "one"), (1, "few"), (2, "many")]))).headD []) = 1 :=
  C6_singular_four_columns _ _ (by decide)

/-! ### C7 — hint label formatting -/

/-- The source's range-collapsing loop computes exactly the rendered
maximal runs. -/
theorem fvLoop_spec (vs : List Nat) : ∀ (parts : List String) (start prev : Nat),
    fvLoop parts start prev vs = parts ++ (specRunsAux start prev vs).map specRender := by
  induction vs with
  | nil =>
    intro parts start prev
    simp [fvLoop, specRunsAux, specRender, fvRender]
  | cons v vs ih =>
    intro parts start prev
    by_cases hv : v = prev + 1
    · simp [fvLoop, specRunsAux, hv, ih]
    · simp [fvLoop, specRunsAux, hv, ih, specRender, fvRender]

/-- C7: for an ascending sample (with the empty sample never flagged as
truncated, as `group` produces it), the formatted hint collapses maximal
consecutive runs, renders singletons bare, keeps the first 2 ranges,
appends `", ..."` exactly when more than 2 ranges exist or the bucket has
more values, and the label is `"Singular, n = "` or `"Plural, n = "`
according to whether the value 1 is in the sample. -/
theorem C7_hint_formatting (idx : Nat) (values : List Nat) (has_more : Bool)
    (hsorted : List.Chain' (fun a b => a < b) values)
    (hempty : values = [] → has_more = false) :
    _format_values values has_more =
      (if 2 < (specRuns values).length ∨ has_more = true then
        String.intercalate ", " (((specRuns values).map specRender).take 2) ++ ", ..."
      else String.intercalate ", " (((specRuns values).map specRender).take 2))
    ∧ hint_label ⟨idx, values, has_more⟩ =
        (if 1 ∈ values then "Singular" else "Plural") ++ ", n = " ++
          _format_values values has_more := by
  constructor
  · cases values with
    | nil =>
      have hm := hempty rfl
      subst hm
      decide
    | cons v vs =>
      simp only [_format_values, specRuns, fvLoop_spec, List.nil_append,
        MAX_RANGE_PARTS, List.length_map]
      by_cases h2 : 2 < (specRunsAux v v vs).length <;> cases has_more <;> simp [h2]
  · by_cases hc : 1 ∈ values <;>
      simp [hint_label, List.elem_iff, hc, List.contains]

/-- Witness for C7 at a concrete bucket sample. -/
theorem C7_witness :
    List.Chain' (fun a b => a < b) [0, 2, 3, 5, 7] ∧
    (_format_values [0, 2, 3, 5, 7] false =
      (if 2 < (specRuns [0, 2, 3, 5, 7]).length ∨ false = true then
        String.intercalate ", " (((specRuns [0, 2, 3, 5, 7]).map specRender).take 2) ++ ", ..."
      else String.intercalate ", " (((specRuns [0, 2, 3, 5, 7]).map specRender).take 2))
    ∧ hint_label ⟨1, [0, 2, 3, 5, 7], false⟩ =
        (if 1 ∈ [0, 2, 3, 5, 7] then "Singular" else "Plural") ++ ", n = " ++
          _format_values [0, 2, 3, 5, 7] false) :=
  ⟨by simp [List.chain'_cons], C7_hint_formatting 1 [0, 2, 3, 5, 7] false
    (by simp [List.chain'_cons]) (by decide)⟩

/-! ### C2 — cell style precedence -/

/-- Indexing the encoder's data rows: row `i` is the encoding of message
`i`, with the running id offset `j`. -/
theorem tabledata_rows_getElem (np ec : Nat) (ms : List Message) :
    ∀ (i j : Nat) (h : i < ms.length),
    (tabledata_rows np ec j ms)[i]? = some (message_row np ec (j + i) (ms.get ⟨i, h⟩)) := by
  induction ms with
  | nil => intro i j h; simp at h
  | cons m tl ih =>
    intro i j h
    cases i with
    | zero => simp [tabledata_rows]
    | succ i2 =>
      simp only [tabledata_rows, List.getElem?_cons_succ]
      rw [ih i2 (j + 1) (by simpa using Nat.lt_of_succ_lt_succ h)]
      have hj : j + 1 + i2 = j + (i2 + 1) := by omega
      rw [hj]
      simp

/-- C2, counterexample: the claim says an obsolete message's target cells
get the obsolete style even when some target text is empty; but an obsolete
PLURAL message with an empty form is styled `MSG_STR_EMPTY`, not
`MSG_STR_OBSOLETE`, in all of its form cells. -/
theorem C2_counterexample :
    (get_tabledata [⟨Translation.plural "p" [(0, ""), (1, "z")], Option.none, Option.none,
        Option.none, true⟩] (some [(0, "Singular"), (1, "Plural")])).map
      (fun r => r.map Prod.snd) =
    [[some Style.HEADER, some Style.HEADER, some Style.HEADER, some Style.HEADER,
      some Style.HEADER],
     [some Style.ID, some Style.CONTEXT, some Style.MSG_ID, some Style.MSG_STR_EMPTY,
      some Style.MSG_STR_EMPTY]]
    ∧ Style.MSG_STR_EMPTY ≠ Style.MSG_STR_OBSOLETE := by
  constructor
  · decide
  · decide

/-- Projecting the styles out of a run of identically styled cells. -/
theorem map_snd_const_pair (f : Nat → Cell) (st : Option Style) (l : List Nat) :
    (l.map fun pi => ((f pi, st) : Cell × Option Style)).map Prod.snd =
      List.replicate l.length st := by
  induction l with
  | nil => simp
  | cons x xs ih => simp [ih, List.replicate_succ]

/-- C2, amended: the encoder's style precedence is
obsolete > empty > default for SINGULAR messages only; for a plural message
the empty-form check runs last and overrides the obsolete style, so the
precedence there is empty > obsolete > default, with the chosen style
applied to every form cell (a singular row's filler cells carry no
style). -/
theorem C2_style_precedence_amended (msgs : List Message)
    (hints : Option (List (Nat × String))) (i : Nat) (h : i < msgs.length) :
    (((get_tabledata msgs hints).drop 1)[i]?).map (fun r => r.map Prod.snd) =
      some (match (msgs.get ⟨i, h⟩).translation with
        | Translation.plural _ d =>
          [some Style.ID, some Style.CONTEXT, some Style.MSG_ID] ++
            List.replicate (max (num_plurals hints) 1)
              (some (if (dvalues d).any (fun v => v == "") then Style.MSG_STR_EMPTY
                else if (msgs.get ⟨i, h⟩).obsolete then Style.MSG_STR_OBSOLETE
                else Style.MSG_ID))
        | Translation.singular _ t =>
          [some Style.ID, some Style.CONTEXT, some Style.MSG_ID,
           some (if (msgs.get ⟨i, h⟩).obsolete then Style.MSG_STR_OBSOLETE
             else if t = "" then Style.MSG_STR_EMPTY else Style.MSG_ID)] ++
            List.replicate (extra_cols hints msgs) Option.none) := by
  have key : ∀ (np ec j : Nat) (m : Message),
      (message_row np ec j m).map Prod.snd =
        (match m.translation with
          | Translation.plural _ d =>
            [some Style.ID, some Style.CONTEXT, some Style.MSG_ID] ++
              List.replicate (max np 1)
                (some (if (dvalues d).any (fun v => v == "") then Style.MSG_STR_EMPTY
                  else if m.obsolete then Style.MSG_STR_OBSOLETE
                  else Style.MSG_ID))
          | Translation.singular _ t =>
            [some Style.ID, some Style.CONTEXT, some Style.MSG_ID,
             some (if m.obsolete then Style.MSG_STR_OBSOLETE
               else if t = "" then Style.MSG_STR_EMPTY else Style.MSG_ID)] ++
              List.replicate ec Option.none) := by
    intro np ec j m
    obtain ⟨tr, ctx, cm, tc, ob⟩ := m
    cases tr with
    | plural a d =>
      have hstyle : msg_str_style ⟨Translation.plural a d, ctx, cm, tc, ob⟩ =
          (if (dvalues d).any (fun v => v == "") then Style.MSG_STR_EMPTY
           else if ob then Style.MSG_STR_OBSOLETE else Style.MSG_ID) := by
        by_cases he : (dvalues d).any (fun v => v == "") <;> cases ob <;>
          simp [msg_str_style, he]
      simp only [message_row, List.map_append, List.map_cons, List.map_nil, hstyle]
      rw [map_snd_const_pair, List.length_range']
      have hmax : max np 1 = np - 1 + 1 := by omega
      rw [hmax, List.replicate_succ]
      simp
    | singular a t =>
      have hstyle : msg_str_style ⟨Translation.singular a t, ctx, cm, tc, ob⟩ =
          (if ob then Style.MSG_STR_OBSOLETE
           else if t = "" then Style.MSG_STR_EMPTY else Style.MSG_ID) := by
        cases ob <;> by_cases he : t = "" <;> simp [msg_str_style, he]
      simp [message_row, hstyle, List.map_replicate]
  simp only [get_tabledata, List.drop_one, List.tail_cons]
  rw [tabledata_rows_getElem (num_plurals hints) (extra_cols hints msgs) msgs i 0 h]
  simp only [Option.map_some, Nat.zero_add]
  exact congrArg some (key (num_plurals hints) (extra_cols hints msgs) i (msgs.get ⟨i, h⟩))

/-- Witness for C2 at a concrete obsolete plural message with one empty
form next to a singular message. -/
theorem C2_witness :
    (((get_tabledata
        [⟨Translation.singular "s" "t", Option.none, Option.none, Option.none, true⟩,
         ⟨Translation.plural "p" [(0, ""), (1, "z")], Option.none, Option.none,
          Option.none, true⟩]
        (some [(0, "Singular"), (1, "Plural")])).drop 1)[1]?).map
      (fun r => r.map Prod.snd) =
      some [some Style.ID, some Style.CONTEXT, some Style.MSG_ID,
        some Style.MSG_STR_EMPTY, some Style.MSG_STR_EMPTY] := by
  have h := C2_style_precedence_amended
    [⟨Translation.singular "s" "t", Option.none, Option.none, Option.none, true⟩,
     ⟨Translation.plural "p" [(0, ""), (1, "z")], Option.none, Option.none,
      Option.none, true⟩]
    (some [(0, "Singular"), (1, "Plural")]) 1 (by decide)
  exact h.trans (by decide)

/-! ### C4 / C10 — bucket enumeration -/

theorem groupFill_eq_specFill (ev : Nat → Except PyErr PValue)
    (valf : Nat → PValue) (idxf : Nat → Nat) :
    ∀ (ns : List Nat) (gs : List (List Nat)),
    (∀ n ∈ ns, ev n = .ok (valf n) ∧ pyIndex (valf n) = (idxf n : Int)
      ∧ idxf n < gs.length) →
    groupFill ev ns gs = .ok (specFill idxf ns gs) := by
  intro ns
  induction ns with
  | nil => intro gs _; simp [groupFill, specFill]
  | cons n ns ih =>
    intro gs h
    obtain ⟨he, hidx, hlt⟩ := h n (List.mem_cons_self n ns)
    have h1 : (pyIndex (valf n)).toNat = idxf n := by simp [hidx]
    have hcond : (0 ≤ pyIndex (valf n) ∧ (pyIndex (valf n)).toNat < gs.length) := by
      rw [hidx]
      exact ⟨Int.natCast_nonneg _, by simpa using hlt⟩
    simp only [groupFill, he, hcond, if_pos, h1]
    rw [if_pos (show True ∧ idxf n < gs.length from ⟨trivial, hlt⟩)]
    rw [specFill]
    apply ih
    intro x hx
    obtain ⟨a, b, c⟩ := h x (List.mem_cons_of_mem n hx)
    exact ⟨a, b, by simpa using c⟩

theorem specFill_length (idxf : Nat → Nat) :
    ∀ (ns : List Nat) (gs : List (List Nat)),
    (specFill idxf ns gs).length = gs.length := by
  intro ns
  induction ns with
  | nil => intro gs; simp [specFill]
  | cons n ns ih => intro gs; rw [specFill, ih]; simp

theorem specFill_getD (idxf : Nat → Nat) :
    ∀ (ns : List Nat) (gs : List (List Nat)) (j : Nat), j < gs.length →
    (specFill idxf ns gs).getD j [] =
      gs.getD j [] ++ ns.filter (fun n => idxf n == j) := by
  intro ns
  induction ns with
  | nil => intro gs j hj; simp [specFill]
  | cons n ns ih =>
    intro gs j hj
    rw [specFill, ih _ j (by simpa using hj)]
    by_cases he : idxf n = j
    · subst he
      have h1 : (gs.set (idxf n) (gs.getD (idxf n) [] ++ [n])).getD (idxf n) [] =
          gs.getD (idxf n) [] ++ [n] := by
        simp only [List.getD, List.get?_eq_getElem?]
        rw [List.getElem?_set_self hj]
        simp
      rw [h1]
      simp [List.filter_cons]
    · have h1 : (gs.set (idxf n) (gs.getD (idxf n) [] ++ [n])).getD j [] =
          gs.getD j [] := by
        simp only [List.getD, List.get?_eq_getElem?]
        rw [List.getElem?_set_ne he]
      rw [h1]
      have hbe : (idxf n == j) = false := by simp [he]
      simp [List.filter_cons, hbe]

theorem enumBuckets_eq (per : Nat) :
    ∀ (gs : List (List Nat)) (i : Nat),
    enumBuckets per i gs = (List.range gs.length).map (fun j =>
      ⟨i + j, (gs.getD j []).take per, decide (per < (gs.getD j []).length)⟩) := by
  intro gs
  induction gs with
  | nil => intro i; simp [enumBuckets]
  | cons g tl ih =>
    intro i
    rw [enumBuckets, ih (i + 1)]
    rw [show (g :: tl).length = tl.length + 1 from rfl, List.range_succ_eq_map]
    simp only [List.map_cons, List.map_map, List.getD_cons_zero, Nat.add_zero]
    refine congrArg₂ List.cons rfl ?_
    apply List.map_congr_left
    intro j hj
    simp only [Function.comp, List.getD_cons_succ, GroupDict.mk.injEq,
      and_true, true_and, eq_self_iff_true]
    omega

/-- The full characterization of `group`, shared by C4 and C10: with a
parsed plural line and an evaluation that succeeds with an in-range index
everywhere on `0..=max_n`, `group` yields one bucket per index `0..k-1` in
ascending order, whose sample is the ascending list of matching `n`
truncated to `per_group` entries and whose `has_more` says whether matches
were dropped. -/
theorem group_spec (line expr : String) (k : Int) (max_n per_group : Nat)
    (valf : Nat → PValue) (idxf : Nat → Nat)
    (hline : parse_line line = .ok (k, expr))
    (heval : ∀ n, n ≤ max_n → parse expr [("n", (n : Int))] = .ok (valf n)
      ∧ pyIndex (valf n) = (idxf n : Int) ∧ idxf n < k.toNat) :
    group line max_n per_group = .ok ((List.range k.toNat).map fun j =>
      ⟨j, ((List.range (max_n + 1)).filter fun n => idxf n == j).take per_group,
        decide (per_group <
          ((List.range (max_n + 1)).filter fun n => idxf n == j).length)⟩) := by
  have hmem : ∀ n ∈ List.range (max_n + 1),
      (fun i => parse expr [("n", (i : Int))]) n = .ok (valf n)
      ∧ pyIndex (valf n) = (idxf n : Int)
      ∧ idxf n < (List.replicate k.toNat ([] : List Nat)).length := by
    intro n hn
    have hn2 : n ≤ max_n := by
      have := List.mem_range.mp hn
      omega
    have := heval n hn2
    simpa using this
  have hfill := groupFill_eq_specFill (fun i => parse expr [("n", (i : Int))])
    valf idxf (List.range (max_n + 1)) (List.replicate k.toNat []) hmem
  simp only [group, hline, hfill]
  rw [enumBuckets_eq]
  rw [specFill_length, List.length_replicate]
  refine congrArg Except.ok ?_
  apply List.map_congr_left
  intro j hj
  have hjk : j < k.toNat := List.mem_range.mp hj
  rw [specFill_getD _ _ _ j (by simpa using hjk)]
  have hrep : (List.replicate k.toNat ([] : List Nat)).getD j [] = [] := by
    simp [List.getD, List.getElem?_replicate, hjk]
  rw [hrep]
  simp

/-- C4: for a well-formed plural line with `nplurals = k` whose formula
evaluates to an in-range bucket index at every `n` in `0..=max_n`, `group`
emits exactly `k` buckets ordered by ascending index, one per index in
`0..k-1`; each sample is the ascending list of matching values truncated to
`sample_size`, `has_more` is set iff matches were dropped, and an index the
formula never produces yields an empty sample rather than an error. -/
theorem C4_bucket_enumeration (line expr : String) (k : Int)
    (max_n per_group : Nat) (valf : Nat → PValue) (idxf : Nat → Nat)
    (hline : parse_line line = .ok (k, expr))
    (heval : ∀ n, n ≤ max_n → parse expr [("n", (n : Int))] = .ok (valf n)
      ∧ pyIndex (valf n) = (idxf n : Int) ∧ idxf n < k.toNat) :
    group line max_n per_group = .ok ((List.range k.toNat).map fun j =>
      ⟨j, ((List.range (max_n + 1)).filter fun n => idxf n == j).take per_group,
        decide (per_group <
          ((List.range (max_n + 1)).filter fun n => idxf n == j).length)⟩) :=
  group_spec line expr k max_n per_group valf idxf hline heval

/-- Witness for C4 on the spec's 3-bucket example with `max_n = 6` and
`sample_size = 5`; bucket 2 is reached by `n = 0` and `n ≥ 3`. -/
theorem C4_witness :
    group "nplurals=3; plural=n==1 ? 0 : n==2 ? 1 : 2;" 6 5 =
      .ok ((List.range (Int.toNat 3)).map fun j =>
        ⟨j, ((List.range 7).filter fun n =>
            (if n = 1 then 0 else if n = 2 then 1 else 2) == j).take 5,
          decide (5 < ((List.range 7).filter fun n =>
            (if n = 1 then 0 else if n = 2 then 1 else 2) == j).length)⟩) :=
  C4_bucket_enumeration "nplurals=3; plural=n==1 ? 0 : n==2 ? 1 : 2;"
    "n==1 ? 0 : n==2 ? 1 : 2" 3 6 5
    (fun n => if n = 1 then .int 0 else if n = 2 then .int 1 else .int 2)
    (fun n => if n = 1 then 0 else if n = 2 then 1 else 2)
    (by decide) (by decide)

/-- Evaluating the formula `n != 1` at any integer binding for `n`: the
parser's control flow on this input never depends on the value, so the
evaluation is definitional. -/
theorem parse_neq1 (v : Int) :
    parse "n != 1" [("n", v)] = Except.ok (.bool (v != 1)) := rfl

/-- Only `n = 1` selects bucket 0 under the index function of `n != 1`. -/
theorem filter_neq1_bucket0 : ∀ (m : Nat), 2 ≤ m →
    (List.range m).filter (fun n => ((if n = 1 then 0 else 1) : Nat) == 0) = [1] := by
  intro m hm
  induction m with
  | zero => omega
  | succ m ih =>
    rcases Nat.lt_or_ge m 2 with h2 | h2
    · have hm1 : m = 1 := by omega
      subst hm1
      decide
    · rw [List.range_succ, List.filter_append, ih h2]
      have hne : m ≠ 1 := by omega
      simp [hne]

/-- C10: a formula whose top level is a boolean comparison is used directly
as the bucket key, `False` selecting bucket 0 and `True` bucket 1: for the
plural line `nplurals=2; plural=n != 1;` and any `max_n ≥ 1`, bucket 0's
values are exactly `[1]` and bucket 1 holds every other `n` of `0..=max_n`
(sampled at the default `per_group = 5`), with no error raised. -/
theorem C10_bool_bucket_index (max_n : Nat) (h : 1 ≤ max_n) :
    group "nplurals=2; plural=n != 1;" max_n 5 = .ok
      [⟨0, [1], false⟩,
       ⟨1, ((List.range (max_n + 1)).filter fun n => decide (n ≠ 1)).take 5,
         decide (5 < ((List.range (max_n + 1)).filter fun n => decide (n ≠ 1)).length)⟩] := by
  have hline : parse_line "nplurals=2; plural=n != 1;" = .ok (2, "n != 1") := by decide
  have hspec := group_spec "nplurals=2; plural=n != 1;" "n != 1" 2 max_n 5
    (fun n => .bool ((n : Int) != 1)) (fun n => if n = 1 then 0 else 1) hline
    (by
      intro n hn
      refine ⟨parse_neq1 (n : Int), ?_, ?_⟩
      · by_cases h1 : n = 1
        · subst h1; simp [pyIndex]
        · simp [pyIndex, h1, Nat.cast_eq_one]
      · by_cases h1 : n = 1 <;> simp [h1])
  have hf0 : (List.range (max_n + 1)).filter
      (fun n => ((if n = 1 then 0 else 1) : Nat) == 0) = [1] :=
    filter_neq1_bucket0 (max_n + 1) (by omega)
  have hf1 : (List.range (max_n + 1)).filter
      (fun n => ((if n = 1 then 0 else 1) : Nat) == 1) =
      (List.range (max_n + 1)).filter (fun n => decide (n ≠ 1)) := by
    apply List.filter_congr
    intro a ha
    by_cases h1 : a = 1 <;> simp [h1]
  refine hspec.trans (congrArg Except.ok ?_)
  have hmap : ∀ (f : Nat → GroupDict),
      (List.range (Int.toNat 2)).map f = [f 0, f 1] := fun f => rfl
  rw [hmap]
  simp only [hf0, hf1]
  rfl

/-- Witness for C10 at `max_n = 3`. -/
theorem C10_witness :
    group "nplurals=2; plural=n != 1;" 3 5 = .ok
      [⟨0, [1], false⟩,
       ⟨1, ((List.range 4).filter fun n => decide (n ≠ 1)).take 5,
         decide (5 < ((List.range 4).filter fun n => decide (n ≠ 1)).length)⟩] :=
  C10_bool_bucket_index 3 (by decide)

/-! ### C1 — encode/decode round trip -/

/-- C1, counterexample: in a mixed singular+plural catalog the encoded grid
does NOT decode to the same tuples — the singular entry `("a" → "x")` comes
back as a plural entry with form map `{0: "x", 1: ""}`, so its original
tuple is absent from the decoded set. -/
theorem C1_counterexample :
    (convert_xlsx (gridValues (get_tabledata
        [⟨Translation.singular "a" "x", Option.none, Option.none, Option.none, false⟩,
         ⟨Translation.plural "b" [(0, "y"), (1, "z")], Option.none, Option.none,
          Option.none, false⟩]
        (some [(0, "Singular"), (1, "Plural")])))).map
      (fun es => es.map POEntry.tuple) =
    .ok [(Option.none, "a", Target.map [(0, "x"), (1, "")], false),
         (Option.none, "b", Target.map [(0, "y"), (1, "z")], false)]
    ∧ Message.tuple
        ⟨Translation.singular "a" "x", Option.none, Option.none, Option.none, false⟩
        ∈ List.map Message.tuple
          [⟨Translation.singular "a" "x", Option.none, Option.none, Option.none, false⟩,
           ⟨Translation.plural "b" [(0, "y"), (1, "z")], Option.none, Option.none,
            Option.none, false⟩]
    ∧ Message.tuple
        ⟨Translation.singular "a" "x", Option.none, Option.none, Option.none, false⟩
        ∉ [((Option.none : Option String), "a", Target.map [(0, "x"), (1, "")], false),
           (Option.none, "b", Target.map [(0, "y"), (1, "z")], false)] := by
  refine ⟨by decide, by decide, by decide⟩

/-- The embedded `strStarts` accepts any extension of the pattern. -/
theorem strStarts_self_append : ∀ (p r : List Char), strStarts p (p ++ r) = true := by
  intro p
  induction p with
  | nil => intro r; rfl
  | cons c cs ih => intro r; simp [strStarts, ih]

/-- Every translation header label starts with `"Translation"`. -/
theorem transl_label_starts (s : String) :
    strStarts "Translation".toList ("Translation (" ++ s ++ ")").toList = true := by
  have h1 : ("Translation (" ++ s ++ ")").toList
      = "Translation".toList ++ (" (".toList ++ s.toList ++ ")".toList) := by
    show (("Translation (" ++ s) ++ ")").data = _
    rw [String.data_append, String.data_append]
    rw [show "Translation (".data = "Translation".data ++ " (".data from rfl]
    simp [List.append_assoc]
  rw [h1]
  exact strStarts_self_append _ _

/-- Every translation header label is a truthy (non-empty) cell. -/
theorem transl_label_truthy (s : String) :
    cellTruthy (Cell.str ("Translation (" ++ s ++ ")")) = true := by
  simp only [cellTruthy, bne_iff_ne, ne_eq]
  intro hcontra
  have hd := congrArg String.data hcontra
  rw [String.data_append, String.data_append] at hd
  simp at hd

/-- With plurals present the decoder counts one translation column per
declared plural form. -/
theorem num_translation_cols_plural (hl : List (Nat × String)) (msgs : List Message)
    (hhp : has_plurals (some hl) msgs = true) :
    num_translation_cols ((table_header (some hl) msgs).map Prod.fst)
      = num_plurals (some hl) := by
  have hnp2 : 2 ≤ num_plurals (some hl) := by
    simp [has_plurals] at hhp
    exact hhp.1
  have hvals : (table_header (some hl) msgs).map Prod.fst =
      [Cell.str "id", Cell.str "Context", Cell.str "Singular Form",
       Cell.str ("Translation (" ++ dget hl 0 "Singular" ++ ")")] ++
      (List.range' 1 (num_plurals (some hl) - 1)).map
        (fun i => Cell.str (extra_translation_label hl i)) := by
    simp [table_header, base_translation_label, hhp, Function.comp]
  rw [hvals]
  have hdrop : ∀ (l2 : List Cell) (a b c d : Cell),
      ([a, b, c, d] ++ l2).drop 3 = d :: l2 := by
    intro l2 a b c d
    rfl
  rw [num_translation_cols, hdrop]
  have hbase : (cellTruthy (Cell.str ("Translation (" ++ dget hl 0 "Singular" ++ ")")) &&
      strStarts "Translation".toList
        (cellStr (Cell.str ("Translation (" ++ dget hl 0 "Singular" ++ ")"))).toList) = true := by
    rw [Bool.and_eq_true]
    exact ⟨transl_label_truthy _, transl_label_starts _⟩
  simp only [List.filter_cons, hbase, if_true]
  have hfil : ((List.range' 1 (num_plurals (some hl) - 1)).map
      (fun i => Cell.str (extra_translation_label hl i))).filter
        (fun h => cellTruthy h && strStarts "Translation".toList (cellStr h).toList)
      = (List.range' 1 (num_plurals (some hl) - 1)).map
        (fun i => Cell.str (extra_translation_label hl i)) := by
    rw [List.filter_eq_self]
    intro a ha
    simp only [List.mem_map] at ha
    obtain ⟨x, hx, rfl⟩ := ha
    show (cellTruthy _ &&
      strStarts "Translation".toList (cellStr (Cell.str (extra_translation_label hl x))).toList) = true
    rw [Bool.and_eq_true]
    exact ⟨transl_label_truthy _, transl_label_starts _⟩
  rw [hfil]
  simp only [List.length_cons, List.length_map, List.length_range']
  omega

/-- Decoding the Context cell the encoder wrote recovers the context and
the obsolete flag, for contexts that avoid the reserved values. -/
theorem ctx_cell_decode (ob : Bool) (ctx : Option String)
    (hctx : (match ctx with
      | Option.none => true
      | Option.some s => s != "" && s != "obsolete") = true)
    (hobs : (!ob || ctx == Option.none) = true) :
    (cellIsObsolete (if ob then Cell.str "obsolete" else optCell ctx) = ob)
    ∧ ((if cellTruthy (if ob then Cell.str "obsolete" else optCell ctx) &&
          !cellIsObsolete (if ob then Cell.str "obsolete" else optCell ctx) then
        (match (if ob then Cell.str "obsolete" else optCell ctx) with
         | Cell.str s => some s
         | Cell.int n2 => some (toString n2)
         | Cell.none => none)
      else none) = ctx) := by
  cases ob with
  | false =>
    cases hc : ctx with
    | none => simp [optCell, cellTruthy, cellIsObsolete]
    | some s =>
      subst hc
      have hctx2 := hctx
      rw [Bool.and_eq_true] at hctx2
      obtain ⟨h1, h2⟩ := hctx2
      have h1b : s ≠ "" := by simpa using h1
      have h2b : s ≠ "obsolete" := by simpa using h2
      simp [optCell, cellTruthy, cellIsObsolete, h1b, h2b]
  | true =>
    have hcn : ctx = Option.none := by
      cases hc : ctx with
      | none => rfl
      | some s => subst hc; simp at hobs
    subst hcn
    simp [cellIsObsolete, cellTruthy]

/-- Reading the translation region of an encoded data row: column `3 + pi`
is the base cell for `pi = 0` and the `pi - 1`-th extension cell
otherwise. -/
theorem plural_cols_cons (k : Nat) (c0 c1 c2 c3 : Cell) (l2 : List Cell) :
    plural_cols k (c0 :: c1 :: c2 :: c3 :: l2)
    = (List.range k).map (fun pi =>
      (pi, if pi = 0 then cellOrEmpty c3
        else if pi - 1 < l2.length then cellOrEmpty (l2.getD (pi - 1) Cell.none)
        else "")) := by
  rw [plural_cols]
  apply List.map_congr_left
  intro pi _
  cases pi with
  | zero =>
    have hlen : 3 + 0 < (c0 :: c1 :: c2 :: c3 :: l2).length := by simp
    rw [if_pos hlen]
    rfl
  | succ pj =>
    have hne : ¬ (pj + 1 = 0) := by omega
    rw [if_neg hne]
    by_cases h2 : pj + 1 - 1 < l2.length
    · have hlen : 3 + (pj + 1) < (c0 :: c1 :: c2 :: c3 :: l2).length := by
        simp
        omega
      rw [if_pos hlen, if_pos h2]
      have hg : (c0 :: c1 :: c2 :: c3 :: l2).getD (3 + (pj + 1)) Cell.none
          = l2.getD pj Cell.none := by
        rw [show 3 + (pj + 1) = pj + 4 from by omega]
        rfl
      rw [hg]
      rfl
    · have hlen : ¬ (3 + (pj + 1) < (c0 :: c1 :: c2 :: c3 :: l2).length) := by
        simp
        omega
      rw [if_neg hlen, if_neg h2]

/-- Splitting the map over `0..k-1` into the head index and the rest. -/
theorem map_range_split {α : Type} (n : Nat) (hn : 1 ≤ n) (f : Nat → α) :
    (List.range n).map f = f 0 :: (List.range' 1 (n - 1)).map f := by
  rw [List.range_eq_range']
  obtain ⟨m, rfl⟩ : ∃ m, n = m + 1 := ⟨n - 1, by omega⟩
  rw [List.range'_succ]
  simp

/-- An association list whose keys are exactly `range' s cnt` in order is
recovered by reading `dget` back at each key. -/
theorem assoc_range' : ∀ (cnt s : Nat) (l : List (Nat × String)),
    l.map Prod.fst = List.range' s cnt →
    (List.range' s cnt).map (fun i => (i, dget l i "")) = l := by
  intro cnt
  induction cnt with
  | zero =>
    intro s l h
    cases l with
    | nil => simp
    | cons p tl => simp at h
  | succ m ih =>
    intro s l h
    rw [List.range'_succ] at h ⊢
    cases l with
    | nil => simp at h
    | cons p tl =>
      simp only [List.map_cons, List.cons.injEq] at h
      obtain ⟨hp, htl⟩ := h
      obtain ⟨pk, pv⟩ := p
      simp only at hp
      subst hp
      simp only [List.map_cons]
      congr 1
      · simp [dget, List.lookup]
      · have hmap : (List.range' (pk + 1) m).map (fun i => (i, dget ((pk, pv) :: tl) i ""))
            = (List.range' (pk + 1) m).map (fun i => (i, dget tl i "")) := by
          apply List.map_congr_left
          intro i hi
          have his : pk + 1 ≤ i := (List.mem_range'_1.mp hi).1
          have hne : (i == pk) = false := by
            simp
            omega
          simp [dget, List.lookup, hne]
        rw [hmap, ih (pk + 1) tl htl]

/-- The encoder emits one data row per message. -/
theorem tabledata_rows_length (np ec : Nat) :
    ∀ (ms : List Message) (i : Nat), (tabledata_rows np ec i ms).length = ms.length := by
  intro ms
  induction ms with
  | nil => intro i; rfl
  | cons m tl ih => intro i; simp [tabledata_rows, ih]

/-- Decoding all data rows: when each encoded row decodes to the tuple of
its message, the whole filterMap is the map of those tuples. -/
theorem filterMap_decode (k np ec : Nat)
    (g : Message → Option String × String × Target × Bool) :
    ∀ (ms : List Message) (i : Nat),
    (∀ m ∈ ms, ∀ j : Nat,
      (decode_row k ((message_row np ec j m).map Prod.fst)).map POEntry.tuple
        = some (g m)) →
    (((tabledata_rows np ec i ms).map (List.map Prod.fst)).filterMap
      (decode_row k)).map POEntry.tuple = ms.map g := by
  intro ms
  induction ms with
  | nil => intro i _; simp [tabledata_rows]
  | cons m tl ih =>
    intro i h
    have hm := h m (List.mem_cons_self m tl) i
    obtain ⟨e, he, hte⟩ := Option.map_eq_some'.mp hm
    simp only [tabledata_rows, List.map_cons, List.filterMap_cons, he]
    simp only [List.map_cons, hte]
    rw [ih (i + 1) (fun x hx j => h x (List.mem_cons_of_mem m hx) j)]


/-- Decoding one encoded singular row of a catalog without plural columns
recovers the message's tuple exactly. -/
theorem decode_row_singular_cat (np i : Nat) (m : Message) (a t : String)
    (htr : m.translation = Translation.singular a t)
    (hctx : ctxOkB m = true) (hobs : obsCtxOkB m = true) :
    (decode_row 1 ((message_row np 0 i m).map Prod.fst)).map POEntry.tuple
      = some (m.context, a, Target.text t, m.obsolete) := by
  obtain ⟨tr, ctx, cm, tc, ob⟩ := m
  simp only at htr
  subst htr
  obtain ⟨hob, hctx2⟩ := ctx_cell_decode ob ctx
    (by simpa [ctxOkB] using hctx) (by simpa [obsCtxOkB] using hobs)
  have hrow : (message_row np 0 i
      ⟨Translation.singular a t, ctx, cm, tc, ob⟩).map Prod.fst
      = [Cell.int (i + 1), (if ob then Cell.str "obsolete" else optCell ctx),
         Cell.str a, Cell.str t] := by
    simp [message_row]
  rw [hrow]
  simp [decode_row, List.getD_cons_zero, List.getD_cons_succ, hob, hctx2,
    cellOrEmpty, POEntry.tuple]
  simpa [hob] using hctx2

/-- Decoding one encoded row of a plural catalog (`k = n ≥ 2` translation
columns): a plural message's form map round-trips exactly, a singular
message comes back as the padded form map of `roundtripTuple`. -/
theorem decode_row_plural_cat (n i : Nat) (hn2 : 2 ≤ n) (m : Message)
    (hctx : ctxOkB m = true) (hobs : obsCtxOkB m = true)
    (hk : pluralKeysOkB n m = true) :
    (decode_row n ((message_row n (n - 1) i m).map Prod.fst)).map POEntry.tuple
      = some (roundtripTuple true n m) := by
  obtain ⟨tr, ctx, cm, tc, ob⟩ := m
  obtain ⟨hob, hctx2⟩ := ctx_cell_decode ob ctx
    (by simpa [ctxOkB] using hctx) (by simpa [obsCtxOkB] using hobs)
  have h1n : 1 < n := by omega
  cases tr with
  | singular a t =>
    have hrow : (message_row n (n - 1) i
        ⟨Translation.singular a t, ctx, cm, tc, ob⟩).map Prod.fst
        = Cell.int (i + 1) :: (if ob then Cell.str "obsolete" else optCell ctx) ::
          Cell.str a :: Cell.str t :: List.replicate (n - 1) (Cell.str "") := by
      simp [message_row, List.map_replicate]
    have hcols : plural_cols n (Cell.int (i + 1) ::
        (if ob then Cell.str "obsolete" else optCell ctx) ::
        Cell.str a :: Cell.str t :: List.replicate (n - 1) (Cell.str ""))
        = (0, t) :: (List.range' 1 (n - 1)).map (fun pi => (pi, "")) := by
      rw [plural_cols_cons]
      rw [map_range_split n (by omega)]
      congr 1
      apply List.map_congr_left
      intro pi hpi
      have hpi2 := List.mem_range'_1.mp hpi
      have hne : ¬ (pi = 0) := by omega
      have hlt : pi - 1 < (List.replicate (n - 1) (Cell.str "")).length := by
        simp
        omega
      rw [if_neg hne, if_pos hlt]
      have hrep : (List.replicate (n - 1) (Cell.str "")).getD (pi - 1) Cell.none
          = Cell.str "" := by
        have h3 : pi - 1 < n - 1 := by omega
        simp [List.getD, List.getElem?_replicate, h3]
      rw [hrep]
      rfl
    rw [hrow]
    simp [decode_row, List.getD_cons_zero, List.getD_cons_succ, hob, hctx2,
      cellOrEmpty, POEntry.tuple, h1n, hcols, roundtripTuple]
    simpa [hob] using hctx2
  | plural a d =>
    have hkeys : d.map Prod.fst = List.range n := by
      simpa [pluralKeysOkB] using hk
    have hrow : (message_row n (n - 1) i
        ⟨Translation.plural a d, ctx, cm, tc, ob⟩).map Prod.fst
        = Cell.int (i + 1) :: (if ob then Cell.str "obsolete" else optCell ctx) ::
          Cell.str a :: Cell.str (dget d 0 "") ::
          (List.range' 1 (n - 1)).map (fun pi => Cell.str (dget d pi "")) := by
      simp [message_row, Function.comp]
    have hcols : plural_cols n (Cell.int (i + 1) ::
        (if ob then Cell.str "obsolete" else optCell ctx) ::
        Cell.str a :: Cell.str (dget d 0 "") ::
        (List.range' 1 (n - 1)).map (fun pi => Cell.str (dget d pi ""))) = d := by
      rw [plural_cols_cons]
      have hmid : (List.range n).map (fun pi =>
          (pi, if pi = 0 then cellOrEmpty (Cell.str (dget d 0 ""))
            else if pi - 1 <
                ((List.range' 1 (n - 1)).map (fun pi => Cell.str (dget d pi ""))).length then
              cellOrEmpty (((List.range' 1 (n - 1)).map
                (fun pi => Cell.str (dget d pi ""))).getD (pi - 1) Cell.none)
            else ""))
          = (List.range n).map (fun pi => (pi, dget d pi "")) := by
        apply List.map_congr_left
        intro pi hpi
        have hpin : pi < n := List.mem_range.mp hpi
        by_cases hp0 : pi = 0
        · subst hp0
          rfl
        · have hlt : pi - 1 <
              ((List.range' 1 (n - 1)).map (fun pi => Cell.str (dget d pi ""))).length := by
            simp
            omega
          rw [if_neg hp0, if_pos hlt]
          have hgd : ((List.range' 1 (n - 1)).map
              (fun pi => Cell.str (dget d pi ""))).getD (pi - 1) Cell.none
              = Cell.str (dget d pi "") := by
            simp only [List.getD, List.get?_eq_getElem?, List.getElem?_map]
            rw [List.getElem?_eq_getElem (by simp; omega)]
            simp only [List.getElem_range']
            rw [show 1 + 1 * (pi - 1) = pi from by omega]
            rfl
          rw [hgd]
          rfl
      rw [hmid]
      rw [List.range_eq_range']
      exact assoc_range' n 0 d (by rw [← List.range_eq_range']; exact hkeys)
    rw [hrow]
    simp [decode_row, List.getD_cons_zero, List.getD_cons_succ, hob, hctx2,
      cellOrEmpty, POEntry.tuple, h1n, hcols, roundtripTuple]
    simpa [hob] using hctx2


/-- C1, amended: for a catalog whose hints declare dense forms `0..n-1`,
whose contexts avoid the reserved blank/"obsolete" values, whose obsolete
entries carry no context, and whose plural maps are dense over `0..n-1`
(with `n ≥ 2` whenever a plural message is present), decoding the encoded
grid recovers every entry's `(context, source, target, obsolete)` tuple —
exactly for plural entries and for every entry of a purely singular
catalog, while a singular entry of a catalog WITH plural columns comes
back as a plural entry whose form 0 is the original target and whose other
forms are empty (the deviation the counterexample forces). An entry with
empty target text is retained, empty string included. -/
theorem C1_roundtrip_amended (msgs : List Message) (n : Nat)
    (hl : List (Nat × String))
    (hne : msgs ≠ [])
    (hkeys : hl.map Prod.fst = List.range n)
    (hmsg : ∀ m ∈ msgs, ctxOkB m = true ∧ obsCtxOkB m = true
      ∧ pluralKeysOkB n m = true)
    (hp2 : msgs.any Message.is_plural = true → 2 ≤ n) :
    (convert_xlsx (gridValues (get_tabledata msgs (some hl)))).map
      (fun es => es.map POEntry.tuple)
    = .ok (msgs.map (roundtripTuple (msgs.any Message.is_plural) n)) := by
  have hlen : hl.length = n := by
    have h2 := congrArg List.length hkeys
    simpa using h2
  have hnp : num_plurals (some hl) = n := by simp [num_plurals, hlen]
  have hgrid : gridValues (get_tabledata msgs (some hl)) =
      ((table_header (some hl) msgs).map Prod.fst) ::
      ((tabledata_rows (num_plurals (some hl)) (extra_cols (some hl) msgs) 0 msgs).map
        (List.map Prod.fst)) := by
    simp [gridValues, get_tabledata]
  have hpos : 0 < msgs.length := List.length_pos.mpr hne
  have hlen2 : ¬ ((((table_header (some hl) msgs).map Prod.fst) ::
      ((tabledata_rows (num_plurals (some hl)) (extra_cols (some hl) msgs) 0 msgs).map
        (List.map Prod.fst))).length < 2) := by
    simp [tabledata_rows_length]
    omega
  rw [hgrid]
  rw [convert_xlsx]
  rw [if_neg hlen2]
  simp only [List.headD_cons, List.drop_succ_cons, List.drop_zero]
  cases hP : msgs.any Message.is_plural with
  | false =>
    have hhp : has_plurals (some hl) msgs = false := by simp [has_plurals, hP]
    have hec : extra_cols (some hl) msgs = 0 := by simp [extra_cols, hhp]
    have hhd : (table_header (some hl) msgs).map Prod.fst =
        [Cell.str "id", Cell.str "Context", Cell.str "Singular Form",
         Cell.str "Translation"] := by
      simp [table_header, hhp, base_translation_label]
    have hk : num_translation_cols ((table_header (some hl) msgs).map Prod.fst) = 1 := by
      rw [hhd]
      decide
    rw [hk, hec]
    simp only [Except.map]
    refine congrArg Except.ok ?_
    rw [filterMap_decode 1 (num_plurals (some hl)) 0
      (roundtripTuple false n) msgs 0 ?_]
    intro m hm j
    have hmp : m.is_plural = false := by
      have := List.any_eq_false.mp hP m hm
      simpa using this
    obtain ⟨hc1, hc2, hc3⟩ := hmsg m hm
    obtain ⟨tr, ctx, cm, tc, ob⟩ := m
    cases tr with
    | plural a d => simp [Message.is_plural] at hmp
    | singular a t =>
      rw [decode_row_singular_cat (num_plurals (some hl)) j
        ⟨Translation.singular a t, ctx, cm, tc, ob⟩ a t rfl hc1 hc2]
      simp [roundtripTuple, Message.tuple]
  | true =>
    have hn2 : 2 ≤ n := hp2 hP
    have hhp : has_plurals (some hl) msgs = true := by
      simp [has_plurals, hP, hnp]
      omega
    have hec : extra_cols (some hl) msgs = n - 1 := by
      simp [extra_cols, hhp, hnp]
    have hk := num_translation_cols_plural hl msgs hhp
    rw [hk, hnp, hec]
    simp only [Except.map]
    refine congrArg Except.ok ?_
    rw [filterMap_decode n n (n - 1) (roundtripTuple true n) msgs 0 ?_]
    intro m hm j
    obtain ⟨hc1, hc2, hc3⟩ := hmsg m hm
    exact decode_row_plural_cat n j hn2 m hc1 hc2 hc3

/-- Witness for C1 (amended) at the concrete mixed catalog. -/
theorem C1_witness :
    (convert_xlsx (gridValues (get_tabledata C1msgs
        (some [(0, "Singular"), (1, "Plural")])))).map
      (fun es => es.map POEntry.tuple)
    = .ok (C1msgs.map (roundtripTuple (C1msgs.any Message.is_plural) 2)) :=
  C1_roundtrip_amended C1msgs 2 [(0, "Singular"), (1, "Plural")]
    (by decide) (by decide) (by decide) (by decide)

end pox
